import Mathlib

/-!
Verification development for the Prompt Perfect backend (PPB).

The embedded code is the meta-prompt construction engine of `src/index.js`:
`selectRelevantPrinciples` (context-aware principle selection),
`detectTaskType` (task-category classification), the meta-prompt assembly
performed in the `/api/enhance` handler together with the task-specific
guide section, and the handler's input validation.

JavaScript semantics relevant here and modelled explicitly:
- `a.priority || 999` treats every falsy value (missing `undefined` and the
  number `0`) as 999;
- `Array.prototype.sort` sorts the array in place (mutating the caller's
  array) and is stable per the ECMAScript specification, so it is modelled
  by a stable insertion sort plus explicit passing of the final array state;
- `if (xs)` on an array field is true for a present array even when the
  array is empty, and false only when the field is absent;
- `String.prototype.toLowerCase` is modelled on the ASCII range (all
  detection keywords in the program are ASCII);
- the regular expressions in `detectTaskType` all have the shape
  `\b(w1|w2|...)\b` tested with the `i` flag against the already lowercased
  request, which is word-boundary matching of each alternative word.
-/

namespace PPB

/-- ASCII lowercasing of one character, as `toLowerCase` acts on the ASCII
range (`src/index.js`: `userPrompt.toLowerCase()`). -/
def jsLowerChar (c : Char) : Char :=
  if 65 ≤ c.toNat ∧ c.toNat ≤ 90 then Char.ofNat (c.toNat + 32) else c

/-- Lowercase a character list (model of `String.prototype.toLowerCase`). -/
def jsToLowerL (l : List Char) : List Char := l.map jsLowerChar

/-- Lowercase a string. -/
def jsToLower (s : String) : String := String.mk (jsToLowerL s.data)

/-- Substring containment on character lists (model of
`String.prototype.includes`). -/
def listIsInfixOf (needle : List Char) : List Char → Bool
  | [] => needle.isEmpty
  | c :: rest => needle.isPrefixOf (c :: rest) || listIsInfixOf needle rest

/-- Substring containment on strings (model of `haystack.includes(sub)`). -/
def jsIncludes (haystack sub : String) : Bool := listIsInfixOf sub.data haystack.data

/-- Word characters of the regex class `\w`, used by `\b` boundaries. -/
def isWordChar (c : Char) : Bool :=
  (97 ≤ c.toNat && c.toNat ≤ 122) || (65 ≤ c.toNat && c.toNat ≤ 90) ||
    (48 ≤ c.toNat && c.toNat ≤ 57) || (c.toNat == 95)

/-- A `\b` boundary holds at the text edge or next to a non-word character. -/
def boundaryOk : Option Char → Bool
  | none => true
  | some c => !(isWordChar c)

/-- Scan for an occurrence of word `w` with `\b` boundaries on both sides;
`prev` is the character just before the current position. -/
def hasWordFrom (w : List Char) : Option Char → List Char → Bool
  | _, [] => false
  | prev, c :: rest =>
    (boundaryOk prev && w.isPrefixOf (c :: rest) &&
        boundaryOk (((c :: rest).drop w.length).head?))
      || hasWordFrom w (some c) rest

/-- Whether regex `\bw\b` matches the text `t`. -/
def hasWord (w : String) (t : List Char) : Bool := hasWordFrom w.data none t

/-- Whether the alternation `\b(w1|w2|...)\b` matches the text `t`. -/
def matchesAny (ws : List String) (t : List Char) : Bool := ws.any (fun w => hasWord w t)

/-- The six task categories returned by `detectTaskType`. -/
inductive TaskCategory where
  | code_generation
  | formal_writing
  | creative_writing
  | data_analysis
  | reasoning_and_analysis
  | general
deriving DecidableEq, Repr

/-- First keyword group of the code-generation rule in `detectTaskType`. -/
def codeWords : List String :=
  ["code", "function", "api", "debug", "fix", "script", "program", "algorithm",
   "implement", "bug"]

/-- Second keyword group of the code-generation rule. -/
def langWords : List String :=
  ["javascript", "python", "java", "react", "node", "sql", "html", "css"]

/-- First keyword group of the formal-writing rule. -/
def formalWords1 : List String :=
  ["write", "email", "document", "report", "letter", "memo", "proposal",
   "essay", "article"]

/-- Second keyword group of the formal-writing rule. -/
def formalWords2 : List String := ["formal", "professional", "business", "academic"]

/-- First keyword group of the creative-writing rule. -/
def creativeWords1 : List String :=
  ["story", "narrative", "poem", "creative", "fiction", "character", "plot",
   "dialogue"]

/-- Second keyword group of the creative-writing rule. -/
def creativeWords2 : List String := ["imagine", "invent", "brainstorm", "ideate"]

/-- First keyword group of the data-analysis rule. -/
def dataWords1 : List String :=
  ["analyze", "data", "csv", "json", "statistics", "chart", "graph",
   "evaluate", "compare"]

/-- Second keyword group of the data-analysis rule. -/
def dataWords2 : List String := ["dataset", "metrics", "insights", "trends", "visualize"]

/-- Keyword group of the reasoning rule. -/
def reasoningWords : List String :=
  ["reasoning", "logic", "solve", "calculate", "math", "problem", "think",
   "analyze"]

/-- Model of `detectTaskType` (`src/index.js`, improvement 3): lowercase the
request, then test the category rules in the code's fixed order. -/
def detectTaskType (userPrompt : String) : TaskCategory :=
  let promptLower := jsToLowerL userPrompt.data
  if matchesAny codeWords promptLower || matchesAny langWords promptLower then
    TaskCategory.code_generation
  else if matchesAny formalWords1 promptLower || matchesAny formalWords2 promptLower then
    TaskCategory.formal_writing
  else if matchesAny creativeWords1 promptLower || matchesAny creativeWords2 promptLower then
    TaskCategory.creative_writing
  else if matchesAny dataWords1 promptLower || matchesAny dataWords2 promptLower then
    TaskCategory.data_analysis
  else if matchesAny reasoningWords promptLower then
    TaskCategory.reasoning_and_analysis
  else TaskCategory.general

/-- Ordered rule table of the classifier, with each category's keyword groups
merged. Modelled from the spec: section 4.2 describes the classifier as an
ordered list of category rules evaluated top to bottom, first match wins. -/
def ruleTable : List (TaskCategory × List String) :=
  [(TaskCategory.code_generation, codeWords ++ langWords),
   (TaskCategory.formal_writing, formalWords1 ++ formalWords2),
   (TaskCategory.creative_writing, creativeWords1 ++ creativeWords2),
   (TaskCategory.data_analysis, dataWords1 ++ dataWords2),
   (TaskCategory.reasoning_and_analysis, reasoningWords)]

/-- First-match-wins evaluation of a rule table. -/
def firstMatch (t : List Char) : List (TaskCategory × List String) → TaskCategory
  | [] => TaskCategory.general
  | (cat, ws) :: rest => if matchesAny ws t then cat else firstMatch t rest

/-- Modelled from the spec (section 4.2): classification as first-match-wins
evaluation of the ordered rule table. -/
def specClassify (s : String) : TaskCategory := firstMatch (jsToLowerL s.data) ruleTable

/-- A prompting principle of a knowledge document. The `matched` flag models
the extra property added by `{ ...principle, matched: true }`; in a parsed
document it is absent, which JavaScript reads as falsy, so document
principles carry `matched = false`. -/
structure Principle where
  title : String
  content : String
  keywords : List String
  detection_patterns : Option (List String)
  priority : Option Int
  matched : Bool
deriving DecidableEq, Repr

/-- Model of the spread copy `{ ...principle, matched: true }`. -/
def markMatched (p : Principle) : Principle :=
  ⟨p.title, p.content, p.keywords, p.detection_patterns, p.priority, true⟩

/-- Model of `a.priority || 999`: missing priority and the falsy number `0`
both become the sentinel 999. -/
def effPriority (p : Principle) : Int :=
  match p.priority with
  | none => 999
  | some v => if v = 0 then 999 else v

/-- Whether some detection pattern of `p`, lowercased, is a substring of the
lowercased request (the `isRelevant` test inside `selectRelevantPrinciples`);
a principle without `detection_patterns` never matches. -/
def isRelevant (promptLower : List Char) (p : Principle) : Bool :=
  match p.detection_patterns with
  | none => false
  | some pats => pats.any (fun pat => listIsInfixOf (jsToLowerL pat.data) promptLower)

/-- Stable insertion of `p` behind all strictly smaller keys. -/
def insertP (p : Principle) : List Principle → List Principle
  | [] => [p]
  | q :: rest =>
    if effPriority q < effPriority p then q :: insertP p rest else p :: q :: rest

/-- Stable sort by effective priority. `Array.prototype.sort` with the
comparator `(a.priority || 999) - (b.priority || 999)` is required by the
ECMAScript specification to be stable and consistent, hence it computes
exactly this stable sort. -/
def sortP : List Principle → List Principle
  | [] => []
  | p :: rest => insertP p (sortP rest)

/-- Model of `selectRelevantPrinciples(userPrompt, allPrinciples)` including
its effect on the caller's array: `allPrinciples.sort(...)` reorders the
input array in place, so the function maps the array state to the sorted
state. The first component is the returned list, the second the final state
of the `allPrinciples` array. -/
def selectRelevantPrinciplesFull (userPrompt : String) (allPrinciples : List Principle) :
    List Principle × List Principle :=
  let promptLower := jsToLowerL userPrompt.data
  let relevant := (allPrinciples.filter (fun p => isRelevant promptLower p)).map markMatched
  let sorted := sortP allPrinciples
  let result :=
    if relevant.length < 3 then
      relevant ++
        (sorted.filter (fun p => !(relevant.any (fun rp => rp.title == p.title)))).take
          (5 - relevant.length)
    else relevant
  (result.take 5, sorted)

/-- The value returned by `selectRelevantPrinciples`. -/
def selectRelevantPrinciples (userPrompt : String) (allPrinciples : List Principle) :
    List Principle :=
  (selectRelevantPrinciplesFull userPrompt allPrinciples).1

/-- Number of principles whose detection patterns match the request. -/
def matchedCount (userPrompt : String) (allPrinciples : List Principle) : Nat :=
  (allPrinciples.filter (fun p => isRelevant (jsToLowerL userPrompt.data) p)).length

/-- The matched (`relevantPrinciples`) list built by the selector's first
pass: matching principles in document order, copied with `matched: true`. -/
def rel1 (userPrompt : String) (allPrinciples : List Principle) : List Principle :=
  (allPrinciples.filter (fun p => isRelevant (jsToLowerL userPrompt.data) p)).map markMatched

/-- The priority-fill candidates: the sorted array filtered to titles not
already in the matched list. -/
def fillFilter (userPrompt : String) (allPrinciples : List Principle) : List Principle :=
  (sortP allPrinciples).filter (fun p =>
    !((rel1 userPrompt allPrinciples).any (fun rp => rp.title == p.title)))

/-- A structural element or anti-pattern entry: title and content. -/
structure StructElem where
  title : String
  content : String
deriving DecidableEq, Repr

/-- The optional before/after example of a task-specific guide entry. -/
structure TaskGuideExample where
  before : String
  after : String
deriving DecidableEq, Repr

/-- A task-specific guide entry; `ex` models the optional JSON field
`example` (renamed because `example` is a Lean keyword). -/
structure TaskGuide where
  title : String
  content : String
  ex : Option TaskGuideExample
deriving DecidableEq, Repr

/-- The `guide` object of a knowledge document; each list field is optional,
and `task_specific_guides` is a key/value mapping. -/
structure Guide where
  principles : Option (List Principle)
  structural_elements : Option (List StructElem)
  anti_patterns : Option (List StructElem)
  task_specific_guides : Option (List (TaskCategory × List TaskGuide))
deriving DecidableEq, Repr

/-- The `guide_data` value fetched from the store. -/
structure GuideData where
  guide : Option Guide
deriving DecidableEq, Repr

/-- Key lookup in the `task_specific_guides` object: absent key gives `none`;
a present key with an empty list is distinct from an absent key, exactly as
`obj[key]` distinguishes `[]` (truthy) from `undefined` (falsy). -/
def lookupTSG (task : TaskCategory) : List (TaskCategory × List TaskGuide) →
    Option (List TaskGuide)
  | [] => none
  | (k, v) :: rest => if k = task then some v else lookupTSG task rest

/-- Decimal digit character. -/
def digitChar (n : Nat) : Char := Char.ofNat (48 + n)

/-- Fuel-driven decimal digit accumulation (structural, so it reduces). -/
def natDigitsCore : Nat → Nat → List Char → List Char
  | 0, _, acc => acc
  | fuel + 1, n, acc =>
    if n = 0 then acc else natDigitsCore fuel (n / 10) (digitChar (n % 10) :: acc)

/-- Decimal rendering of a natural number, as `${index + 1}` renders the
index in a template literal. -/
def natToStr (n : Nat) : String :=
  if n = 0 then "0" else String.mk (natDigitsCore n n [])

/-- One numbered entry: `${i + 1}. **${title}**\n   ${content}\n\n`. -/
def renderEntry (i : Nat) (title content : String) : String :=
  natToStr (i + 1) ++ ". **" ++ title ++ "**\n   " ++ content ++ "\n\n"

/-- Numbered rendering of selected principles starting at index `i`. -/
def renderPrinciplesFrom (i : Nat) : List Principle → String
  | [] => ""
  | p :: rest => renderEntry i p.title p.content ++ renderPrinciplesFrom (i + 1) rest

/-- Numbered rendering of structural elements or anti-patterns. -/
def renderElemsFrom (i : Nat) : List StructElem → String
  | [] => ""
  | e :: rest => renderEntry i e.title e.content ++ renderElemsFrom (i + 1) rest

/-- Optional example block of a task-specific guide entry. -/
def renderExample : Option TaskGuideExample → String
  | none => ""
  | some ex =>
    "   \n   Example Transformation:\n   Before: \"" ++ ex.before ++
      "\"\n   After: \"" ++ ex.after ++ "\"\n"

/-- Numbered rendering of the task-specific guide entries. -/
def renderTaskGuidesFrom (i : Nat) : List TaskGuide → String
  | [] => ""
  | g :: rest =>
    natToStr (i + 1) ++ ". **" ++ g.title ++ "**\n   " ++ g.content ++ "\n" ++
      renderExample g.ex ++ "\n" ++ renderTaskGuidesFrom (i + 1) rest

/-- Constant preamble of the meta-prompt. -/
def basePreamble : String :=
  "You are an expert prompt engineer. Refine the user's prompt based on these key principles:\n\n"

/-- Header of the structural-guidelines section. -/
def structHeader : String := "Key Structural Guidelines:\n\n"

/-- Header of the anti-patterns section. -/
def antiHeader : String := "Common Mistakes to Avoid:\n\n"

/-- Header of the task-specific section. -/
def taskHeader : String := "\n## Task-Specific Guidelines:\n\n"

/-- Constant closing sentence of the meta-prompt. -/
def closingLine : String :=
  "Apply these principles to enhance the user's prompt, making it more specific, structured, and effective for the target AI platform."

/-- Structural section (`src/index.js` lines 94-101). The guard
`if (guide_data.guide && guide_data.guide.structural_elements)` tests object
truthiness: a present array is truthy even when empty, so only an absent
field suppresses the section. -/
def structSection (gd : GuideData) : String :=
  match gd.guide with
  | none => ""
  | some g =>
    match g.structural_elements with
    | none => ""
    | some els => structHeader ++ renderElemsFrom 0 (els.take 2)

/-- Anti-pattern section (`src/index.js` lines 104-111), same gating. -/
def antiSection (gd : GuideData) : String :=
  match gd.guide with
  | none => ""
  | some g =>
    match g.anti_patterns with
    | none => ""
    | some els => antiHeader ++ renderElemsFrom 0 (els.take 3)

/-- Task-specific section (improvement 3 of the meta-prompt construction):
gated on `taskType !== 'general'`, presence of `task_specific_guides`, and
truthiness of `task_specific_guides[taskType]`. -/
def taskSection (gd : GuideData) (task : TaskCategory) : String :=
  match gd.guide with
  | none => ""
  | some g =>
    if task = TaskCategory.general then ""
    else
      match g.task_specific_guides with
      | none => ""
      | some tsg =>
        match lookupTSG task tsg with
        | none => ""
        | some guides => taskHeader ++ renderTaskGuidesFrom 0 guides

/-- The meta-prompt composer: base preamble, numbered selected principles,
structural section, anti-pattern section, task-specific section, closing
sentence, in the code's fixed order. -/
def compose (gd : GuideData) (selectedPrinciples : List Principle) (task : TaskCategory) :
    String :=
  basePreamble ++ renderPrinciplesFrom 0 selectedPrinciples ++ structSection gd ++
    antiSection gd ++ taskSection gd task ++ closingLine

/-- Validation errors of the `/api/enhance` handler. -/
inductive EnhanceError where
  | MissingPlatform
  | MissingRequest
deriving DecidableEq, Repr

/-- JavaScript falsiness of an optional string field: absent (`undefined`)
and the empty string are falsy. -/
def jsFalsyStr : Option String → Bool
  | none => true
  | some s => s == ""

/-- Input validation of the `/api/enhance` handler (`src/index.js` lines
36-50): platform first, then prompt. -/
def validateEnhance (platform prompt : Option String) : Option EnhanceError :=
  if jsFalsyStr platform then some EnhanceError.MissingPlatform
  else if jsFalsyStr prompt then some EnhanceError.MissingRequest
  else none

/-- The header substring of claim C2, as a character list. -/
def hdrL : List Char := "Key Structural Guidelines:".data

/-- A fragment of the composer output: either a constant literal of the code
or an arbitrary text field of the inputs. -/
inductive Piece where
  | lit (s : String)
  | fld (s : String)

/-- Underlying string of a piece. -/
def Piece.str : Piece → String
  | lit s => s
  | fld s => s

/-- Characters of a piece list, concatenated. -/
def flattenData : List Piece → List Char
  | [] => []
  | p :: rest => p.str.data ++ flattenData rest

/-- Pieces of one numbered entry. -/
def entryPieces (i : Nat) (title content : String) : List Piece :=
  [Piece.lit (natToStr (i + 1) ++ ". **"), Piece.fld title, Piece.lit "**\n   ",
   Piece.fld content, Piece.lit "\n\n"]

/-- Pieces of the selected-principles section body. -/
def principlesPiecesFrom (i : Nat) : List Principle → List Piece
  | [] => []
  | p :: rest => entryPieces i p.title p.content ++ principlesPiecesFrom (i + 1) rest

/-- Pieces of a structural-element or anti-pattern section body. -/
def elemsPiecesFrom (i : Nat) : List StructElem → List Piece
  | [] => []
  | e :: rest => entryPieces i e.title e.content ++ elemsPiecesFrom (i + 1) rest

/-- Pieces of the newline after a task guide's content line, the optional
example block, and the entry's closing newline. -/
def examplePieces : Option TaskGuideExample → List Piece
  | none => [Piece.lit "\n", Piece.lit "\n"]
  | some ex =>
    [Piece.lit "\n", Piece.lit "   \n   Example Transformation:\n   Before: \"",
     Piece.fld ex.before, Piece.lit "\"\n   After: \"", Piece.fld ex.after,
     Piece.lit "\"\n", Piece.lit "\n"]

/-- Pieces of the task-specific section body. -/
def taskGuidePiecesFrom (i : Nat) : List TaskGuide → List Piece
  | [] => []
  | g :: rest =>
    [Piece.lit (natToStr (i + 1) ++ ". **"), Piece.fld g.title, Piece.lit "**\n   ",
        Piece.fld g.content] ++
      examplePieces g.ex ++ taskGuidePiecesFrom (i + 1) rest

/-- Pieces of the structural section. -/
def structPieces (gd : GuideData) : List Piece :=
  match gd.guide with
  | none => []
  | some g =>
    match g.structural_elements with
    | none => []
    | some els => Piece.lit structHeader :: elemsPiecesFrom 0 (els.take 2)

/-- Pieces of the anti-pattern section. -/
def antiPieces (gd : GuideData) : List Piece :=
  match gd.guide with
  | none => []
  | some g =>
    match g.anti_patterns with
    | none => []
    | some els => Piece.lit antiHeader :: elemsPiecesFrom 0 (els.take 3)

/-- Pieces of the task-specific section. -/
def taskPieces (gd : GuideData) (task : TaskCategory) : List Piece :=
  match gd.guide with
  | none => []
  | some g =>
    if task = TaskCategory.general then []
    else
      match g.task_specific_guides with
      | none => []
      | some tsg =>
        match lookupTSG task tsg with
        | none => []
        | some guides => Piece.lit taskHeader :: taskGuidePiecesFrom 0 guides

/-- The whole composer output as a piece list. -/
def composePieces (gd : GuideData) (sel : List Principle) (task : TaskCategory) :
    List Piece :=
  Piece.lit basePreamble ::
    (principlesPiecesFrom 0 sel ++ structPieces gd ++ antiPieces gd ++
      taskPieces gd task ++ [Piece.lit closingLine])

/-- A literal is harmless when the header does not occur in it and no
nonempty proper prefix of the header is one of its suffixes. -/
def litOK (s : String) : Prop :=
  ¬ (hdrL <:+: s.data) ∧
    ∀ k ∈ List.range hdrL.length, k = 0 ∨ ¬ ((hdrL.take k) <:+ s.data)

/-- The first character of `s` exists and is foreign to the header. -/
def headOK (s : String) : Prop := ∃ c cs, s.data = c :: cs ∧ c ∉ hdrL

/-- Pieces are chained safely: literals are harmless, fields are free of the
header and immediately followed by a literal whose first character is
foreign to the header. -/
def chainOK : List Piece → Prop
  | [] => True
  | Piece.lit s :: rest => litOK s ∧ chainOK rest
  | Piece.fld s :: rest =>
    ¬ (hdrL <:+: s.data) ∧
      (match rest with
       | Piece.lit s2 :: _ => headOK s2
       | _ => False) ∧
      chainOK rest

/-- A string that does not contain the header substring. -/
abbrev strPure (s : String) : Prop := ¬ (hdrL <:+: s.data)

/-- A principle whose rendered fields do not contain the header. -/
abbrev principlePure (p : Principle) : Prop := strPure p.title ∧ strPure p.content

/-- An element whose rendered fields do not contain the header. -/
abbrev elemPure (e : StructElem) : Prop := strPure e.title ∧ strPure e.content

/-- Purity of the optional example block. -/
def exPure : Option TaskGuideExample → Prop
  | none => True
  | some e => strPure e.before ∧ strPure e.after

instance exPureDecidable : (ex : Option TaskGuideExample) → Decidable (exPure ex)
  | none => isTrue trivial
  | some e => inferInstanceAs (Decidable (strPure e.before ∧ strPure e.after))

/-- A task guide whose rendered fields do not contain the header. -/
abbrev guidePure (g : TaskGuide) : Prop :=
  strPure g.title ∧ strPure g.content ∧ exPure g.ex

/-- The `structural_elements` field reachable from a document. -/
def structuralOf (gd : GuideData) : Option (List StructElem) :=
  match gd.guide with
  | none => none
  | some g => g.structural_elements

/-- The anti-pattern entries reachable from a document. -/
def antiOf (gd : GuideData) : List StructElem :=
  match gd.guide with
  | none => []
  | some g =>
    match g.anti_patterns with
    | none => []
    | some l => l

/-- The task-guide entries the composer would render for `task`. -/
def taskGuidesOf (gd : GuideData) (task : TaskCategory) : List TaskGuide :=
  match gd.guide with
  | none => []
  | some g =>
    match g.task_specific_guides with
    | none => []
    | some tsg =>
      match lookupTSG task tsg with
      | none => []
      | some l => l

/-- Shorthand constructor for concrete principles used in witnesses. -/
def pX (t : String) (pats : Option (List String)) (prio : Option Int) : Principle :=
  ⟨t, "c", [], pats, prio, false⟩

/-- Five-principle document in which exactly three principles match the
request `"x"`. -/
def c1ps : List Principle :=
  [pX "T1" (some ["x"]) none, pX "T2" (some ["x"]) none, pX "T3" (some ["x"]) none,
   pX "T4" none none, pX "T5" none none]

/-- Two principles given to the selector out of priority order. -/
def c3ps : List Principle := [pX "B" none (some 2), pX "A" none (some 1)]

/-- A principle with explicit priority 1000. -/
def c4exp : Principle := pX "E" none (some 1000)

/-- A principle lacking the priority field. -/
def c4miss : Principle := pX "M" none none

/-- A non-matching principle holding top priority. -/
def c7other : Principle := ⟨"Top Priority Principle", "c", [], none, some 1, false⟩

/-- A principle whose detection patterns include "write code", with an
arbitrary priority value. -/
def c7wc (prio : Option Int) : Principle :=
  ⟨"Write Code Principle", "c", [], some ["write code"], prio, false⟩

/-- A document whose `structural_elements` field is present but empty. -/
def c2doc : GuideData := ⟨some ⟨none, some [], none, none⟩⟩

/-- A benign document with absent `structural_elements`, one anti-pattern and
one task guide with an example. -/
def c2wdoc : GuideData :=
  ⟨some ⟨none, none, some [⟨"AP Title", "AP content"⟩],
    some [(TaskCategory.code_generation, [⟨"TG Title", "TG content", some ⟨"b", "a"⟩⟩])]⟩⟩

/-- A benign selected-principles list. -/
def c2wsel : List Principle := [pX "P1" none none]

theorem toNat_ofNat_small {n : Nat} (h : n < 55296) : (Char.ofNat n).toNat = n := by
  rw [Char.ofNat, dif_pos (Or.inl h)]
  rfl

theorem jsLowerChar_idem (c : Char) : jsLowerChar (jsLowerChar c) = jsLowerChar c := by
  unfold jsLowerChar
  by_cases h : 65 ≤ c.toNat ∧ c.toNat ≤ 90
  · rw [if_pos h]
    have h32 : (Char.ofNat (c.toNat + 32)).toNat = c.toNat + 32 :=
      toNat_ofNat_small (by omega)
    have hno : ¬ (65 ≤ (Char.ofNat (c.toNat + 32)).toNat ∧
        (Char.ofNat (c.toNat + 32)).toNat ≤ 90) := by
      rw [h32]; omega
    rw [if_neg hno]
  · rw [if_neg h, if_neg h]

theorem jsToLowerL_idem (l : List Char) : jsToLowerL (jsToLowerL l) = jsToLowerL l := by
  induction l with
  | nil => rfl
  | cons c rest ih =>
    simp only [jsToLowerL, List.map_cons] at ih ⊢
    rw [jsLowerChar_idem, ih]

/-- C10: task classification is invariant under lowercasing the request:
for every string `s`, `detectTaskType s = detectTaskType (jsToLower s)`. -/
theorem detectTaskType_lowercase_invariant (s : String) :
    detectTaskType s = detectTaskType (jsToLower s) := by
  unfold detectTaskType jsToLower
  rw [show (String.mk (jsToLowerL s.data)).data = jsToLowerL s.data from rfl]
  rw [jsToLowerL_idem]

/-- C6: the classifier is total and deterministic: every request maps to one
of the six enumerated categories, and the empty string maps to `general`. -/
theorem detectTaskType_total (s : String) :
    (detectTaskType s = TaskCategory.code_generation ∨
     detectTaskType s = TaskCategory.formal_writing ∨
     detectTaskType s = TaskCategory.creative_writing ∨
     detectTaskType s = TaskCategory.data_analysis ∨
     detectTaskType s = TaskCategory.reasoning_and_analysis ∨
     detectTaskType s = TaskCategory.general) ∧
    detectTaskType "" = TaskCategory.general := by
  constructor
  · cases h : detectTaskType s <;> simp [h]
  · rfl

/-- C5: the classifier equals first-match-wins evaluation of the ordered rule
table (code_generation, formal_writing, creative_writing, data_analysis,
reasoning_and_analysis); the request "analyze this code" also matches the
data-analysis keywords yet classifies as code_generation, which is checked
first. -/
theorem detectTaskType_precedence :
    (∀ s : String, detectTaskType s = specClassify s) ∧
    matchesAny (dataWords1 ++ dataWords2) (jsToLowerL "analyze this code".data) = true ∧
    detectTaskType "analyze this code" = TaskCategory.code_generation := by
  refine ⟨?_, by decide, by decide⟩
  intro s
  simp only [detectTaskType, specClassify, ruleTable, firstMatch, matchesAny,
    List.any_append]

/-- C9: the enhance handler validates `platform` before `prompt`: a body with
missing platform always yields the missing-platform error and never the
missing-request error, whatever the prompt field holds. -/
theorem validateEnhance_platform_first (prompt : Option String) :
    validateEnhance none prompt = some EnhanceError.MissingPlatform ∧
    validateEnhance none prompt ≠ some EnhanceError.MissingRequest := by
  constructor
  · rfl
  · simp [validateEnhance, jsFalsyStr]

/-- C8: the composer is deterministic: two calls on identical documents,
identical selected-principles lists and identical tasks return identical
strings. -/
theorem compose_deterministic (gd1 gd2 : GuideData) (sel1 sel2 : List Principle)
    (t1 t2 : TaskCategory) (hg : gd1 = gd2) (hs : sel1 = sel2) (ht : t1 = t2) :
    compose gd1 sel1 t1 = compose gd2 sel2 t2 := by
  subst hg; subst hs; subst ht; rfl

/-- Witness for C8: determinism applied at a concrete document, selection and
task. -/
theorem compose_deterministic_witness :
    compose c2wdoc c2wsel TaskCategory.code_generation =
      compose c2wdoc c2wsel TaskCategory.code_generation :=
  compose_deterministic c2wdoc c2wdoc c2wsel c2wsel TaskCategory.code_generation
    TaskCategory.code_generation rfl rfl rfl

/-- Counterexample to C1: a document with 5 principles of which exactly 3
match the request "x"; the selection returns 3 entries, not 5, because the
priority fill only runs when fewer than 3 principles match. -/
theorem select_not_always_five :
    (selectRelevantPrinciples "x" c1ps).length = 3 ∧ c1ps.length = 5 := by decide

/-- Counterexample to C3: the selector sorts the caller's array in place, so
after the call the input array `[B(priority 2), A(priority 1)]` has been
reordered and is no longer equal to its initial state. -/
theorem select_mutates_input :
    (selectRelevantPrinciplesFull "zzz" c3ps).2 ≠ c3ps := by decide

/-- Counterexample to C4: a principle with explicit priority 1000 sorts after
a principle lacking the priority field, because the missing field maps to
sentinel 999 < 1000; so missing-priority principles do not sort after every
explicitly prioritized one. -/
theorem ranking_missing_not_always_last :
    sortP [c4exp, c4miss] = [c4miss, c4exp] ∧ c4exp.priority = some 1000 ∧
      c4miss.priority = none := by decide

/-- Counterexample to C2: on a document whose `structural_elements` list is
present but empty, the composed output does contain the header substring,
because an empty array is truthy in JavaScript; so "present but empty" is not
equivalent to "absent". -/
theorem compose_empty_structural_has_header :
    structuralOf c2doc = some [] ∧
      jsIncludes (compose c2doc [] TaskCategory.general)
        "Key Structural Guidelines:" = true := by
  decide

theorem insertP_perm (p : Principle) (l : List Principle) :
    (insertP p l).Perm (p :: l) := by
  induction l with
  | nil => exact List.Perm.refl _
  | cons q rest ih =>
    unfold insertP
    by_cases h : effPriority q < effPriority p
    · rw [if_pos h]
      exact (List.Perm.cons q ih).trans (List.Perm.swap p q rest)
    · rw [if_neg h]

theorem sortP_perm (l : List Principle) : (sortP l).Perm l := by
  induction l with
  | nil => exact List.Perm.refl _
  | cons p rest ih => exact (insertP_perm p (sortP rest)).trans (List.Perm.cons p ih)

/-- C3 amended: the selector returns its result without creating, deleting or
modifying principle objects, but it reorders the caller's array in place via
`Array.prototype.sort`: the final array state is a permutation of the input
(in stable priority order), not necessarily the input itself. -/
theorem select_array_state_perm (userPrompt : String) (allPrinciples : List Principle) :
    ((selectRelevantPrinciplesFull userPrompt allPrinciples).2).Perm allPrinciples :=
  sortP_perm allPrinciples

theorem insertP_pairwise (p : Principle) (l : List Principle)
    (h : l.Pairwise (fun a b => effPriority a ≤ effPriority b)) :
    (insertP p l).Pairwise (fun a b => effPriority a ≤ effPriority b) := by
  induction l with
  | nil => simp [insertP]
  | cons q rest ih =>
    rw [List.pairwise_cons] at h
    obtain ⟨hq, hrest⟩ := h
    unfold insertP
    by_cases hc : effPriority q < effPriority p
    · rw [if_pos hc]
      rw [List.pairwise_cons]
      refine ⟨?_, ih hrest⟩
      intro b hb
      rcases List.mem_cons.1 ((insertP_perm p rest).mem_iff.1 hb) with hb2 | hb2
      · rw [hb2]; exact le_of_lt hc
      · exact hq b hb2
    · rw [if_neg hc]
      have hle : effPriority p ≤ effPriority q := le_of_not_lt hc
      rw [List.pairwise_cons]
      refine ⟨?_, List.pairwise_cons.2 ⟨hq, hrest⟩⟩
      intro b hb
      rcases List.mem_cons.1 hb with hb | hb
      · exact hb ▸ hle
      · exact hle.trans (hq b hb)

theorem sortP_pairwise (l : List Principle) :
    (sortP l).Pairwise (fun a b => effPriority a ≤ effPriority b) := by
  induction l with
  | nil => simp [sortP]
  | cons p rest ih => exact insertP_pairwise p (sortP rest) ih

theorem insertP_filter_key (p : Principle) (l : List Principle) (k : Int) :
    (insertP p l).filter (fun q => effPriority q == k) =
      (p :: l).filter (fun q => effPriority q == k) := by
  induction l with
  | nil => rfl
  | cons q rest ih =>
    unfold insertP
    by_cases hc : effPriority q < effPriority p
    · rw [if_pos hc]
      by_cases hq : effPriority q = k
      · by_cases hp2 : effPriority p = k
        · exact absurd hc (by rw [hq, hp2]; exact lt_irrefl k)
        · simp [List.filter_cons, hq, hp2, ih]
      · simp [List.filter_cons, hq, ih]
    · rw [if_neg hc]

theorem sortP_stable (l : List Principle) (k : Int) :
    (sortP l).filter (fun q => effPriority q == k) =
      l.filter (fun q => effPriority q == k) := by
  induction l with
  | nil => rfl
  | cons p rest ih =>
    show (insertP p (sortP rest)).filter _ = _
    rw [insertP_filter_key p (sortP rest) k]
    simp only [List.filter_cons]
    by_cases hp : effPriority p = k <;> simp [hp, ih]

/-- C4 amended: ranking is the stable sort by effective priority ascending,
where the code's `a.priority || 999` maps a missing priority and the falsy
value 0 to the sentinel 999: the sorted list is a permutation of the input,
it is ordered by effective priority, equal effective priorities keep their
original relative order, and a missing-priority principle never precedes a
principle whose explicit priority is nonzero and below 999 (explicit
priorities that are 0 or at least 999 do not sort before the sentinel). -/
theorem ranking_stable_sort (l : List Principle) :
    (sortP l).Perm l ∧
    (sortP l).Pairwise (fun a b => effPriority a ≤ effPriority b) ∧
    (∀ k : Int, (sortP l).filter (fun q => effPriority q == k) =
        l.filter (fun q => effPriority q == k)) ∧
    (sortP l).Pairwise (fun a b =>
      ¬(a.priority = none ∧ ∃ v, b.priority = some v ∧ v ≠ 0 ∧ v < 999)) := by
  refine ⟨sortP_perm l, sortP_pairwise l, fun k => sortP_stable l k,
    (sortP_pairwise l).imp ?_⟩
  intro a b hab
  rintro ⟨ha, v, hb, hv0, hv999⟩
  have h1 : effPriority a = 999 := by simp [effPriority, ha]
  have h2 : effPriority b = v := by simp [effPriority, hb, hv0]
  rw [h1, h2] at hab
  omega

theorem matched_prefix_aux (a b : List Principle)
    (ha : ∀ x ∈ a, x.matched = true) (hb : ∀ x ∈ b, x.matched = false)
    (n i j : Nat) (p q : Principle) (hij : i ≤ j)
    (hp : ((a ++ b).take n)[i]? = some p) (hq : ((a ++ b).take n)[j]? = some q)
    (hqm : q.matched = true) : p.matched = true := by
  have hin : i < n := by
    by_contra hcon
    rw [List.getElem?_eq_none
      (le_trans (le_trans (List.length_take_le n (a ++ b)) (le_of_not_lt hcon)) (le_refl i))] at hp
    exact Option.noConfusion hp
  have hjn : j < n := by
    by_contra hcon
    rw [List.getElem?_eq_none
      (le_trans (List.length_take_le n (a ++ b)) (le_of_not_lt hcon))] at hq
    exact Option.noConfusion hq
  rw [List.getElem?_take_of_lt hin] at hp
  rw [List.getElem?_take_of_lt hjn] at hq
  by_cases hja : j < a.length
  · have hia : i < a.length := lt_of_le_of_lt hij hja
    rw [List.getElem?_append_left hia] at hp
    exact ha p (List.getElem?_mem hp)
  · rw [List.getElem?_append_right (le_of_not_lt hja)] at hq
    have hfalse := hb q (List.getElem?_mem hq)
    rw [hqm] at hfalse
    exact Bool.noConfusion hfalse

theorem mem_marked_matched {l : List Principle} {x : Principle}
    (hx : x ∈ l.map markMatched) : x.matched = true := by
  obtain ⟨y, _, rfl⟩ := List.mem_map.1 hx
  rfl

/-- C7: whenever the selector output holds any priority-filled entry after a
matched entry, matched entries form a prefix: an unmatched (fill) entry never
precedes a matched one; and in scenario B the principle whose detection
patterns include "write code" heads the output for the request
"write code for a login form" regardless of its priority value. -/
theorem select_matched_first :
    (∀ (req : String) (ps : List Principle), (∀ p ∈ ps, p.matched = false) →
      ∀ (i j : Nat) (p q : Principle), i ≤ j →
        (selectRelevantPrinciples req ps)[i]? = some p →
        (selectRelevantPrinciples req ps)[j]? = some q →
        q.matched = true → p.matched = true) ∧
    (∀ prio : Option Int,
      (selectRelevantPrinciples "write code for a login form"
          [c7other, c7wc prio]).head? = some (markMatched (c7wc prio))) := by
  constructor
  · intro req ps hm i j p q hij hp hq hqm
    simp only [selectRelevantPrinciples, selectRelevantPrinciplesFull] at hp hq
    by_cases hc :
        ((ps.filter (fun p => isRelevant (jsToLowerL req.data) p)).map markMatched).length < 3
    · rw [if_pos hc] at hp hq
      refine matched_prefix_aux _ _ (fun x hx => mem_marked_matched hx) ?_ 5 i j p q hij hp hq hqm
      intro x hx
      have hx1 : x ∈ sortP ps := List.mem_filter.1 (List.mem_of_mem_take hx) |>.1
      exact hm x ((sortP_perm ps).mem_iff.1 hx1)
    · rw [if_neg hc] at hp hq
      rw [show ((ps.filter (fun p => isRelevant (jsToLowerL req.data) p)).map markMatched) =
        ((ps.filter (fun p => isRelevant (jsToLowerL req.data) p)).map markMatched) ++ []
        from (List.append_nil _).symm] at hp hq
      refine matched_prefix_aux _ _ (fun x hx => mem_marked_matched hx) ?_ 5 i j p q hij hp hq hqm
      intro x hx
      exact absurd hx (List.not_mem_nil x)
  · intro prio
    rfl

/-- Witness for C7: the prefix property applied at the concrete request "x"
and the five-principle document `c1ps`, at output positions 0 and 1. -/
theorem select_matched_first_witness :
    (markMatched (pX "T1" (some ["x"]) none)).matched = true :=
  select_matched_first.1 "x" c1ps (by decide) 0 1
    (markMatched (pX "T1" (some ["x"]) none)) (markMatched (pX "T2" (some ["x"]) none))
    (by decide) (by decide) (by decide) (by decide)

theorem select_eq (u : String) (a : List Principle) :
    selectRelevantPrinciples u a =
      (if (rel1 u a).length < 3 then
        rel1 u a ++ (fillFilter u a).take (5 - (rel1 u a).length)
      else rel1 u a).take 5 := rfl

theorem filter_not_length (f : Principle → Bool) (l : List Principle) :
    (l.filter (fun a => !(f a))).length = l.length - (l.filter f).length := by
  induction l with
  | nil => rfl
  | cons a t ih =>
    have hle := List.length_filter_le f t
    by_cases hf : f a = true
    · simp [List.filter_cons, hf, ih]
    · simp [List.filter_cons, hf, ih]
      omega

theorem rel1_length (u : String) (a : List Principle) :
    (rel1 u a).length = matchedCount u a := by
  simp [rel1, matchedCount]

theorem rel1_titles (u : String) (a : List Principle) :
    (rel1 u a).map (fun p => p.title) =
      (a.filter (fun p => isRelevant (jsToLowerL u.data) p)).map (fun p => p.title) := by
  unfold rel1
  rw [List.map_map]
  rfl

theorem rel1_titles_nodup (u : String) (a : List Principle)
    (hn : (a.map (fun p => p.title)).Nodup) :
    ((rel1 u a).map (fun p => p.title)).Nodup := by
  rw [rel1_titles]
  exact List.Nodup.sublist (List.Sublist.map _ (List.filter_sublist a)) hn

theorem any_title_eq_isRelevant (u : String) (a : List Principle)
    (hn : (a.map (fun p => p.title)).Nodup) (p : Principle) (hp : p ∈ a) :
    (rel1 u a).any (fun rp => rp.title == p.title) = isRelevant (jsToLowerL u.data) p := by
  by_cases hf : isRelevant (jsToLowerL u.data) p = true
  · rw [hf, List.any_eq_true]
    exact ⟨markMatched p, List.mem_map_of_mem _ (List.mem_filter.2 ⟨hp, hf⟩),
      by simp [markMatched]⟩
  · rw [Bool.not_eq_true] at hf
    rw [hf, List.any_eq_false]
    intro rp hrp hbeq
    obtain ⟨y, hy, rfl⟩ := List.mem_map.1 hrp
    obtain ⟨hyps, hyf⟩ := List.mem_filter.1 hy
    have hty : y.title = p.title := by simpa [markMatched] using hbeq
    have hyp : y = p := List.inj_on_of_nodup_map hn hyps hp hty
    rw [hyp, hf] at hyf
    exact Bool.noConfusion hyf

theorem fill_titles_not_in_rel1 (u : String) (a : List Principle) (x : Principle)
    (hx : x ∈ fillFilter u a) :
    x.title ∉ (rel1 u a).map (fun p => p.title) := by
  obtain ⟨hx1, hx2⟩ := List.mem_filter.1 hx
  intro hmem
  obtain ⟨rp, hrp, hrpt⟩ := List.mem_map.1 hmem
  have hany : (rel1 u a).any (fun rp => rp.title == x.title) = false := by
    cases hany : (rel1 u a).any (fun rp => rp.title == x.title) with
    | false => rfl
    | true => rw [hany] at hx2; exact Bool.noConfusion hx2
  rw [List.any_eq_false] at hany
  exact hany rp hrp (by rw [hrpt]; exact beq_self_eq_true x.title)

theorem fillFilter_length (u : String) (a : List Principle)
    (hn : (a.map (fun p => p.title)).Nodup) :
    (fillFilter u a).length = a.length - matchedCount u a := by
  unfold fillFilter
  rw [← List.countP_eq_length_filter, (sortP_perm a).countP_eq,
    List.countP_eq_length_filter]
  rw [List.filter_congr (fun x hx => by
    rw [show ((!((rel1 u a).any (fun rp => rp.title == x.title))) =
      (!(isRelevant (jsToLowerL u.data) x))) from by
        rw [any_title_eq_isRelevant u a hn x hx]])]
  rw [filter_not_length]
  rfl

/-- C1 amended: on a document with at least 5 principles carrying pairwise
distinct titles, the selection always has pairwise distinct titles and at
most 5 entries; it has exactly 5 entries when the matched count is below 3
(priority fill tops it up) or at least 5 (truncation), but when exactly 3 or
4 principles match, the fill step is skipped and the output has exactly the
3 or 4 matched entries rather than 5. -/
theorem select_five_amended (req : String) (ps : List Principle)
    (hn : (ps.map (fun p => p.title)).Nodup) (h5 : 5 ≤ ps.length) :
    ((selectRelevantPrinciples req ps).map (fun p => p.title)).Nodup ∧
    (selectRelevantPrinciples req ps).length ≤ 5 ∧
    (matchedCount req ps < 3 ∨ 5 ≤ matchedCount req ps →
      (selectRelevantPrinciples req ps).length = 5) ∧
    ((matchedCount req ps = 3 ∨ matchedCount req ps = 4) →
      (selectRelevantPrinciples req ps).length = matchedCount req ps) := by
  have hm := rel1_length req ps
  have hsortT : ((sortP ps).map (fun p => p.title)).Nodup :=
    ((sortP_perm ps).map (fun p => p.title)).nodup_iff.2 hn
  have hrelT := rel1_titles_nodup req ps hn
  have hmle : matchedCount req ps ≤ ps.length := by
    unfold matchedCount
    exact List.length_filter_le _ ps
  rw [select_eq]
  by_cases hc : (rel1 req ps).length < 3
  · rw [if_pos hc]
    have hfillT : (((fillFilter req ps).take (5 - (rel1 req ps).length)).map
        (fun p => p.title)).Nodup := by
      refine List.Nodup.sublist (List.Sublist.map _ ?_) hsortT
      exact (List.take_sublist _ _).trans (List.filter_sublist _)
    have hdisj : List.Disjoint ((rel1 req ps).map (fun p => p.title))
        (((fillFilter req ps).take (5 - (rel1 req ps).length)).map (fun p => p.title)) := by
      intro t ht1 ht2
      obtain ⟨x, hx, hxt⟩ := List.mem_map.1 ht2
      have hxf : x ∈ fillFilter req ps := List.mem_of_mem_take hx
      exact fill_titles_not_in_rel1 req ps x hxf (hxt ▸ ht1)
    have happN : (((rel1 req ps ++ (fillFilter req ps).take (5 - (rel1 req ps).length))).map
        (fun p => p.title)).Nodup := by
      rw [List.map_append]
      exact List.Nodup.append hrelT hfillT hdisj
    have hlenfill : ((fillFilter req ps).take (5 - (rel1 req ps).length)).length =
        min (5 - (rel1 req ps).length) (ps.length - matchedCount req ps) := by
      rw [List.length_take, fillFilter_length req ps hn]
    refine ⟨?_, ?_, ?_, ?_⟩
    · rw [List.map_take]
      exact List.Nodup.sublist (List.take_sublist _ _) happN
    · rw [List.length_take]
      omega
    · intro hcase
      rw [List.length_take, List.length_append, hlenfill, hm]
      omega
    · intro hcase
      rw [hm] at hc
      omega
  · rw [if_neg hc]
    refine ⟨?_, ?_, ?_, ?_⟩
    · rw [List.map_take]
      exact List.Nodup.sublist (List.take_sublist _ _) hrelT
    · rw [List.length_take]
      omega
    · intro hcase
      rw [List.length_take, hm]
      rw [hm] at hc
      omega
    · intro hcase
      rw [List.length_take, hm]
      rw [hm] at hc
      omega

/-- Witness for C1 amended: the amended theorem applied to the concrete
five-principle document `c1ps` and the request "x" (three matches). -/
theorem select_five_amended_witness :
    ((selectRelevantPrinciples "x" c1ps).map (fun p => p.title)).Nodup ∧
    (selectRelevantPrinciples "x" c1ps).length ≤ 5 ∧
    (matchedCount "x" c1ps < 3 ∨ 5 ≤ matchedCount "x" c1ps →
      (selectRelevantPrinciples "x" c1ps).length = 5) ∧
    ((matchedCount "x" c1ps = 3 ∨ matchedCount "x" c1ps = 4) →
      (selectRelevantPrinciples "x" c1ps).length = matchedCount "x" c1ps) :=
  select_five_amended "x" c1ps (by decide) (by decide)

theorem prefix_append_split {α : Type} (l a b : List α) (h : l <+: a ++ b) :
    l <+: a ∨ ∃ t, l = a ++ t ∧ t <+: b := by
  induction a generalizing l with
  | nil => exact Or.inr ⟨l, rfl, h⟩
  | cons c a2 ih =>
    cases l with
    | nil => exact Or.inl ( List.nil_prefix)
    | cons d l2 =>
      obtain ⟨hd, hl⟩ := List.cons_prefix_cons.1 h
      rcases ih l2 hl with h1 | ⟨t, ht1, ht2⟩
      · exact Or.inl (List.cons_prefix_cons.2 ⟨hd, h1⟩)
      · refine Or.inr ⟨t, ?_, ht2⟩
        rw [hd, ht1]
        rfl

theorem infix_append_split {α : Type} (l a b : List α) (h : l <:+: a ++ b) :
    l <:+: a ∨ l <:+: b ∨
      ∃ s t, l = s ++ t ∧ s ≠ [] ∧ t ≠ [] ∧ s <:+ a ∧ t <+: b := by
  induction a with
  | nil => exact Or.inr (Or.inl h)
  | cons c a2 ih =>
    rw [List.cons_append, List.infix_cons_iff] at h
    rcases h with hpre | hrest
    · rw [← List.cons_append] at hpre
      rcases prefix_append_split l (c :: a2) b hpre with h1 | ⟨t, ht1, ht2⟩
      · exact Or.inl h1.isInfix
      · cases t with
        | nil =>
          rw [List.append_nil] at ht1
          exact Or.inl (ht1 ▸ List.infix_rfl)
        | cons x ts =>
          exact Or.inr (Or.inr ⟨c :: a2, x :: ts, ht1, List.cons_ne_nil c a2,
            List.cons_ne_nil x ts, List.suffix_rfl, ht2⟩)
    · rcases ih hrest with h1 | h2 | ⟨s, t, h3, h4, h5, h6, h7⟩
      · exact Or.inl (List.infix_cons h1)
      · exact Or.inr (Or.inl h2)
      · exact Or.inr (Or.inr ⟨s, t, h3, h4, h5, h6.trans (List.suffix_cons c a2), h7⟩)

theorem listIsInfixOf_iff (n h : List Char) : listIsInfixOf n h = true ↔ n <:+: h := by
  induction h with
  | nil =>
    simp only [listIsInfixOf, List.isEmpty_iff, List.infix_nil]
  | cons c rest ih =>
    simp only [listIsInfixOf, Bool.or_eq_true, List.isPrefixOf_iff_prefix, ih,
      List.infix_cons_iff]

theorem chainOK_tail {p : Piece} {rest : List Piece} (h : chainOK (p :: rest)) :
    chainOK rest := by
  cases p with
  | lit s => exact h.2
  | fld s => exact h.2.2

theorem chainOK_append : ∀ (l1 : List Piece), chainOK l1 →
    ∀ (l2 : List Piece), chainOK l2 → chainOK (l1 ++ l2) := by
  intro l1
  induction l1 with
  | nil => intro _ l2 h2; exact h2
  | cons p rest ih =>
    intro h1 l2 h2
    cases p with
    | lit s => exact ⟨h1.1, ih h1.2 l2 h2⟩
    | fld s =>
      obtain ⟨hp, hnext, hrest⟩ := h1
      cases rest with
      | nil => exact hnext.elim
      | cons p2 rest2 =>
        cases p2 with
        | lit s2 => exact ⟨hp, hnext, ih hrest l2 h2⟩
        | fld s2 => exact hnext.elim

theorem no_occur_flatten : ∀ (ps : List Piece), chainOK ps → ¬ (hdrL <:+: flattenData ps) := by
  intro ps
  induction ps with
  | nil =>
    intro _ hocc
    exact absurd (List.infix_nil.1 hocc) (by decide)
  | cons p rest ih =>
    intro h hocc
    have hocc2 : hdrL <:+: p.str.data ++ flattenData rest := hocc
    rcases infix_append_split hdrL p.str.data (flattenData rest) hocc2 with
      h1 | h2 | ⟨s, t, hst, hs, ht, hsuf, hpre⟩
    · cases p with
      | lit s0 => exact h.1.1 h1
      | fld s0 => exact h.1 h1
    · exact ih (chainOK_tail h) h2
    · cases p with
      | lit s0 =>
        have hklen : s.length < hdrL.length := by
          have ht0 : 0 < t.length := List.length_pos.2 ht
          have : hdrL.length = s.length + t.length := by
            rw [hst, List.length_append]
          omega
        have hk0 : s.length ≠ 0 := by
          have := List.length_pos.2 hs
          omega
        have hs_take : hdrL.take s.length = s := by
          rw [hst]
          exact List.take_left s t
        rcases h.1.2 s.length (List.mem_range.2 hklen) with h0 | hno
        · exact hk0 h0
        · refine hno ?_
          rw [hs_take]
          exact hsuf
      | fld s0 =>
        obtain ⟨hpure, hnext, hrest⟩ := h
        cases rest with
        | nil => exact hnext
        | cons p2 rest2 =>
          cases p2 with
          | fld s2 => exact hnext
          | lit s2 =>
            obtain ⟨c, cs, hdata, hcnot⟩ := hnext
            have hflat : flattenData (Piece.lit s2 :: rest2) = c :: (cs ++ flattenData rest2) := by
              show s2.data ++ flattenData rest2 = _
              rw [hdata]
              rfl
            rw [hflat] at hpre
            cases t with
            | nil => exact ht rfl
            | cons x ts =>
              obtain ⟨hxc, _⟩ := List.cons_prefix_cons.1 hpre
              have hxin : x ∈ hdrL := by
                rw [hst]
                exact List.mem_append_right s (List.mem_cons_self x ts)
              rw [hxc] at hxin
              exact hcnot hxin

theorem headOK_of_head (s : String) (c : Char) (h1 : s.data.head? = some c)
    (h2 : c ∉ hdrL) : headOK s := by
  cases hd : s.data with
  | nil => rw [hd] at h1; exact Option.noConfusion h1
  | cons x xs =>
    rw [hd] at h1
    injection h1 with h1
    exact ⟨x, xs, hd, h1 ▸ h2⟩

set_option maxRecDepth 8192 in
theorem litOK_base : litOK basePreamble := by unfold litOK; decide

theorem litOK_star : litOK "**\n   " := by unfold litOK; decide

theorem litOK_nl : litOK "\n" := by unfold litOK; decide

theorem litOK_nn : litOK "\n\n" := by unfold litOK; decide

set_option maxRecDepth 8192 in
theorem litOK_anti : litOK antiHeader := by unfold litOK; decide

set_option maxRecDepth 8192 in
theorem litOK_taskhdr : litOK taskHeader := by unfold litOK; decide

set_option maxRecDepth 8192 in
theorem litOK_closing : litOK closingLine := by unfold litOK; decide

set_option maxRecDepth 8192 in
theorem litOK_exlit : litOK "   \n   Example Transformation:\n   Before: \"" := by unfold litOK; decide

theorem litOK_afterlit : litOK "\"\n   After: \"" := by unfold litOK; decide

theorem litOK_qn : litOK "\"\n" := by unfold litOK; decide

theorem headOK_star : headOK "**\n   " := headOK_of_head _ '*' rfl (by decide)

theorem headOK_nl : headOK "\n" := headOK_of_head _ '\n' rfl (by decide)

theorem headOK_nn : headOK "\n\n" := headOK_of_head _ '\n' rfl (by decide)

theorem headOK_afterlit : headOK "\"\n   After: \"" := headOK_of_head _ '"' rfl (by decide)

theorem headOK_qn : headOK "\"\n" := headOK_of_head _ '"' rfl (by decide)

theorem natDigitsCore_digits : ∀ (fuel : Nat), ∀ (n : Nat) (acc : List Char),
    (∀ c ∈ acc, 48 ≤ c.toNat ∧ c.toNat ≤ 57) →
    ∀ c ∈ natDigitsCore fuel n acc, 48 ≤ c.toNat ∧ c.toNat ≤ 57 := by
  intro fuel
  induction fuel with
  | zero => intro n acc hacc c hc; exact hacc c hc
  | succ fuel ih =>
    intro n acc hacc c hc
    by_cases hn : n = 0
    · simp only [natDigitsCore, if_pos hn] at hc
      exact hacc c hc
    · simp only [natDigitsCore, if_neg hn] at hc
      refine ih (n / 10) (digitChar (n % 10) :: acc) ?_ c hc
      intro d hd
      rcases List.mem_cons.1 hd with rfl | hd2
      · have hlt : n % 10 < 10 := Nat.mod_lt n (by omega)
        unfold digitChar
        rw [toNat_ofNat_small (by omega)]
        omega
      · exact hacc d hd2

theorem natToStr_digits (n : Nat) : ∀ c ∈ (natToStr n).data, 48 ≤ c.toNat ∧ c.toNat ≤ 57 := by
  unfold natToStr
  by_cases hn : n = 0
  · rw [if_pos hn]
    intro c hc
    rw [show ("0" : String).data = ['0'] from rfl] at hc
    rcases List.mem_singleton.1 hc with rfl
    exact ⟨by decide, by decide⟩
  · rw [if_neg hn]
    intro c hc
    exact natDigitsCore_digits n n [] (fun d hd => absurd hd (List.not_mem_nil d)) c hc

theorem litOK_numlit (i : Nat) : litOK (natToStr (i + 1) ++ ". **") := by
  constructor
  · intro hocc
    have hKin : ('K' : Char) ∈ (natToStr (i + 1) ++ ". **").data :=
      hocc.subset (by decide)
    rw [String.data_append] at hKin
    rcases List.mem_append.1 hKin with hin | hin
    · have hdig := natToStr_digits (i + 1) 'K' hin
      have h75 : ('K' : Char).toNat = 75 := rfl
      omega
    · exact absurd hin (by decide)
  · intro k hk
    rcases Nat.eq_zero_or_pos k with h0 | hpos
    · exact Or.inl h0
    right
    intro hsuf
    have hrev : (hdrL.take k).reverse <+: (natToStr (i + 1) ++ ". **").data.reverse :=
      List.reverse_prefix.2 hsuf
    have hdata : (natToStr (i + 1) ++ ". **").data.reverse =
        '*' :: '*' :: ' ' :: '.' :: (natToStr (i + 1)).data.reverse := by
      rw [String.data_append, List.reverse_append]
      rfl
    rw [hdata] at hrev
    have hne : (hdrL.take k).reverse ≠ [] := by
      intro hcon
      rw [List.reverse_eq_nil_iff, List.take_eq_nil_iff] at hcon
      rcases hcon with hcon | hcon
      · omega
      · exact absurd hcon (by decide)
    obtain ⟨x, xs, hx⟩ := List.exists_cons_of_ne_nil hne
    rw [hx] at hrev
    obtain ⟨hxstar, _⟩ := List.cons_prefix_cons.1 hrev
    have hxin : x ∈ hdrL := by
      have hx1 : x ∈ (hdrL.take k).reverse := hx ▸ List.mem_cons_self x xs
      rw [List.mem_reverse] at hx1
      exact List.mem_of_mem_take hx1
    rw [hxstar] at hxin
    exact absurd hxin (by decide)

theorem chainOK_entry_append (i : Nat) (t c : String) (ht : strPure t) (hc : strPure c)
    (rest : List Piece) (hrest : chainOK rest) :
    chainOK (entryPieces i t c ++ rest) :=
  ⟨litOK_numlit i, ht, headOK_star, litOK_star, hc, headOK_nn, litOK_nn, hrest⟩

theorem chainOK_principlesPieces : ∀ (ps : List Principle), (∀ p ∈ ps, principlePure p) →
    ∀ (i : Nat), chainOK (principlesPiecesFrom i ps) := by
  intro ps
  induction ps with
  | nil => intro _ _; exact trivial
  | cons p rest ih =>
    intro h i
    have hp := h p (List.mem_cons_self p rest)
    exact chainOK_entry_append i p.title p.content hp.1 hp.2 _
      (ih (fun q hq => h q (List.mem_cons_of_mem p hq)) (i + 1))

theorem chainOK_elemsPieces : ∀ (es : List StructElem), (∀ e ∈ es, elemPure e) →
    ∀ (i : Nat), chainOK (elemsPiecesFrom i es) := by
  intro es
  induction es with
  | nil => intro _ _; exact trivial
  | cons e rest ih =>
    intro h i
    have he := h e (List.mem_cons_self e rest)
    exact chainOK_entry_append i e.title e.content he.1 he.2 _
      (ih (fun q hq => h q (List.mem_cons_of_mem e hq)) (i + 1))

theorem chainOK_taskEntry (i : Nat) (g : TaskGuide) (hg : guidePure g)
    (rest : List Piece) (hrest : chainOK rest) :
    chainOK ([Piece.lit (natToStr (i + 1) ++ ". **"), Piece.fld g.title,
      Piece.lit "**\n   ", Piece.fld g.content] ++ (examplePieces g.ex ++ rest)) := by
  obtain ⟨h1, h2, h3⟩ := hg
  cases hex2 : g.ex with
  | none =>
    exact ⟨litOK_numlit i, h1, headOK_star, litOK_star, h2, headOK_nl, litOK_nl,
      litOK_nl, hrest⟩
  | some e =>
    rw [hex2] at h3
    obtain ⟨hb, ha⟩ := h3
    exact ⟨litOK_numlit i, h1, headOK_star, litOK_star, h2, headOK_nl, litOK_nl,
      litOK_exlit, hb, headOK_afterlit, litOK_afterlit, ha, headOK_qn, litOK_qn,
      litOK_nl, hrest⟩

theorem chainOK_taskGuidePieces : ∀ (gs : List TaskGuide), (∀ g ∈ gs, guidePure g) →
    ∀ (i : Nat), chainOK (taskGuidePiecesFrom i gs) := by
  intro gs
  induction gs with
  | nil => intro _ _; exact trivial
  | cons g rest ih =>
    intro h i
    have hshape : taskGuidePiecesFrom i (g :: rest) =
        [Piece.lit (natToStr (i + 1) ++ ". **"), Piece.fld g.title,
          Piece.lit "**\n   ", Piece.fld g.content] ++
          (examplePieces g.ex ++ taskGuidePiecesFrom (i + 1) rest) := by
      simp [taskGuidePiecesFrom, List.append_assoc]
    rw [hshape]
    exact chainOK_taskEntry i g (h g (List.mem_cons_self g rest)) _
      (ih (fun q hq => h q (List.mem_cons_of_mem g hq)) (i + 1))

theorem chainOK_structPieces (gd : GuideData) (habs : structuralOf gd = none) :
    chainOK (structPieces gd) := by
  obtain ⟨og⟩ := gd
  cases og with
  | none => exact trivial
  | some g =>
    obtain ⟨gp, gse, gap, gtsg⟩ := g
    cases gse with
    | none => exact trivial
    | some els =>
      simp [structuralOf] at habs

theorem chainOK_antiPieces (gd : GuideData) (h : ∀ e ∈ antiOf gd, elemPure e) :
    chainOK (antiPieces gd) := by
  obtain ⟨og⟩ := gd
  cases og with
  | none => exact trivial
  | some g =>
    obtain ⟨gp, gse, gap, gtsg⟩ := g
    cases gap with
    | none => exact trivial
    | some els =>
      refine ⟨litOK_anti, ?_⟩
      refine chainOK_elemsPieces (els.take 3) ?_ 0
      intro e he
      exact h e (List.mem_of_mem_take he)

theorem chainOK_taskPieces (gd : GuideData) (task : TaskCategory)
    (h : ∀ g ∈ taskGuidesOf gd task, guidePure g) :
    chainOK (taskPieces gd task) := by
  obtain ⟨og⟩ := gd
  cases og with
  | none => exact trivial
  | some g =>
    obtain ⟨gp, gse, gap, gtsg⟩ := g
    by_cases htask : task = TaskCategory.general
    · have hempty : taskPieces (⟨some ⟨gp, gse, gap, gtsg⟩⟩ : GuideData) task = [] := by
        simp [taskPieces, htask]
      rw [hempty]
      exact trivial
    · cases gtsg with
      | none =>
        have hempty : taskPieces (⟨some ⟨gp, gse, gap, none⟩⟩ : GuideData) task = [] := by
          simp [taskPieces, htask]
        rw [hempty]
        exact trivial
      | some tsg =>
        cases hlk : lookupTSG task tsg with
        | none =>
          have hempty : taskPieces (⟨some ⟨gp, gse, gap, some tsg⟩⟩ : GuideData) task =
              [] := by
            simp [taskPieces, htask, hlk]
          rw [hempty]
          exact trivial
        | some guides =>
          have hgoal : taskPieces (⟨some ⟨gp, gse, gap, some tsg⟩⟩ : GuideData) task =
              Piece.lit taskHeader :: taskGuidePiecesFrom 0 guides := by
            simp [taskPieces, htask, hlk]
          rw [hgoal]
          refine ⟨litOK_taskhdr, ?_⟩
          refine chainOK_taskGuidePieces guides ?_ 0
          intro q hq
          refine h q ?_
          simp [taskGuidesOf, hlk]
          exact hq

theorem flattenData_append (l1 l2 : List Piece) :
    flattenData (l1 ++ l2) = flattenData l1 ++ flattenData l2 := by
  induction l1 with
  | nil => rfl
  | cons p rest ih => simp [flattenData, ih]

theorem renderEntry_data (i : Nat) (t c : String) :
    (renderEntry i t c).data = flattenData (entryPieces i t c) := by
  simp [renderEntry, entryPieces, flattenData, Piece.str, String.data_append, List.append_assoc]

theorem renderPrinciplesFrom_data : ∀ (ps : List Principle) (i : Nat),
    (renderPrinciplesFrom i ps).data = flattenData (principlesPiecesFrom i ps) := by
  intro ps
  induction ps with
  | nil => intro _; rfl
  | cons p rest ih =>
    intro i
    simp only [renderPrinciplesFrom, principlesPiecesFrom, flattenData_append,
      String.data_append, ih, renderEntry_data]

theorem renderElemsFrom_data : ∀ (es : List StructElem) (i : Nat),
    (renderElemsFrom i es).data = flattenData (elemsPiecesFrom i es) := by
  intro es
  induction es with
  | nil => intro _; rfl
  | cons e rest ih =>
    intro i
    simp only [renderElemsFrom, elemsPiecesFrom, flattenData_append,
      String.data_append, ih, renderEntry_data]

theorem examplePieces_data (ex : Option TaskGuideExample) :
    flattenData (examplePieces ex) = ("\n" ++ renderExample ex ++ "\n").data := by
  cases ex with
  | none => rfl
  | some e =>
    simp [examplePieces, renderExample, flattenData, Piece.str, String.data_append,
      List.append_assoc]

theorem renderTaskGuidesFrom_data : ∀ (gs : List TaskGuide) (i : Nat),
    (renderTaskGuidesFrom i gs).data = flattenData (taskGuidePiecesFrom i gs) := by
  intro gs
  induction gs with
  | nil => intro _; rfl
  | cons g rest ih =>
    intro i
    simp [renderTaskGuidesFrom, taskGuidePiecesFrom, flattenData_append, flattenData,
      Piece.str, String.data_append, ih, examplePieces_data, List.append_assoc]

theorem structSection_data (gd : GuideData) :
    (structSection gd).data = flattenData (structPieces gd) := by
  obtain ⟨og⟩ := gd
  cases og with
  | none => rfl
  | some g =>
    obtain ⟨gp, gse, gap, gtsg⟩ := g
    cases gse with
    | none => rfl
    | some els =>
      simp [structSection, structPieces, flattenData, Piece.str, String.data_append,
        renderElemsFrom_data]

theorem antiSection_data (gd : GuideData) :
    (antiSection gd).data = flattenData (antiPieces gd) := by
  obtain ⟨og⟩ := gd
  cases og with
  | none => rfl
  | some g =>
    obtain ⟨gp, gse, gap, gtsg⟩ := g
    cases gap with
    | none => rfl
    | some els =>
      simp [antiSection, antiPieces, flattenData, Piece.str, String.data_append,
        renderElemsFrom_data]

theorem taskSection_data (gd : GuideData) (task : TaskCategory) :
    (taskSection gd task).data = flattenData (taskPieces gd task) := by
  obtain ⟨og⟩ := gd
  cases og with
  | none => rfl
  | some g =>
    obtain ⟨gp, gse, gap, gtsg⟩ := g
    by_cases htask : task = TaskCategory.general
    · simp [taskSection, taskPieces, htask, flattenData]
    · cases gtsg with
      | none => simp [taskSection, taskPieces, htask, flattenData]
      | some tsg =>
        cases hlk : lookupTSG task tsg with
        | none => simp [taskSection, taskPieces, htask, hlk, flattenData]
        | some guides =>
          simp [taskSection, taskPieces, htask, hlk, flattenData, Piece.str, String.data_append,
            renderTaskGuidesFrom_data]

theorem compose_data (gd : GuideData) (sel : List Principle) (task : TaskCategory) :
    (compose gd sel task).data = flattenData (composePieces gd sel task) := by
  simp [compose, composePieces, flattenData, flattenData_append, Piece.str,
    String.data_append, renderPrinciplesFrom_data, structSection_data, antiSection_data,
    taskSection_data, List.append_assoc]

/-- C2 amended: the composed output contains no occurrence of
"Key Structural Guidelines:" when the `structural_elements` field is absent
(not merely empty) and no rendered input text itself contains that substring;
when the field is present but empty the header does appear (see the
counterexample), so "present but empty" is not equivalent to "absent". -/
theorem compose_no_header_when_absent (gd : GuideData) (sel : List Principle)
    (task : TaskCategory) (habs : structuralOf gd = none)
    (hsel : ∀ p ∈ sel, principlePure p)
    (hanti : ∀ e ∈ antiOf gd, elemPure e)
    (htask : ∀ g ∈ taskGuidesOf gd task, guidePure g) :
    ¬ (hdrL <:+: (compose gd sel task).data) := by
  rw [compose_data]
  apply no_occur_flatten
  refine ⟨litOK_base, ?_⟩
  have h1 := chainOK_principlesPieces sel hsel 0
  have h2 := chainOK_structPieces gd habs
  have h3 := chainOK_antiPieces gd hanti
  have h4 := chainOK_taskPieces gd task htask
  have h5 : chainOK [Piece.lit closingLine] := ⟨litOK_closing, trivial⟩
  exact chainOK_append _ (chainOK_append _ (chainOK_append _ (chainOK_append _ h1 _ h2)
    _ h3) _ h4) _ h5

/-- Witness for C2 amended: at a concrete benign document without
`structural_elements`, the output does not contain the header. -/
theorem compose_no_header_witness :
    jsIncludes (compose c2wdoc c2wsel TaskCategory.code_generation)
      "Key Structural Guidelines:" = false := by
  have h := compose_no_header_when_absent c2wdoc c2wsel TaskCategory.code_generation rfl
    (by decide) (by decide) (by decide)
  cases hb : jsIncludes (compose c2wdoc c2wsel TaskCategory.code_generation)
      "Key Structural Guidelines:" with
  | false => rfl
  | true => exact absurd ((listIsInfixOf_iff _ _).1 hb) h

end PPB
